import Mathlib

/-!
Verification of the tool-table generator script (TrackTools/PyUpdateTrackTools.py).

The script is embedded shallowly: Python strings are modelled as lists of
Unicode code points (`PyStr := List Nat`), the regex substitutions of
`normalize_tool_name` as left-to-right scanners (fuelled so they are
structurally recursive and kernel-computable), the two `requests.get` calls of
`query_tool_function` as explicit outcome values, and the file update of
`update_markdown_file` as a function from the optional previous file content to
the new content.  Case mapping (`lower`/`title`) is modelled for ASCII; all
characters used by the constants of the script and the concrete inputs are ASCII or
uncased, on which the model agrees with Python.
-/

/-- Python strings as sequences of Unicode code points. -/
abbrev PyStr := List Nat

/-- Code points of a Lean string literal, used to transcribe Python literals. -/
def pystr (s : String) : PyStr := s.toList.map Char.toNat

/-- ASCII lower-casing of one code point, as Python `str.lower` acts on ASCII. -/
def pyLowerChar (c : Nat) : Nat := if 65 ≤ c ∧ c ≤ 90 then c + 32 else c

/-- ASCII upper-casing of one code point, as Python `str.upper`/titlecasing acts on ASCII. -/
def pyUpperChar (c : Nat) : Nat := if 97 ≤ c ∧ c ≤ 122 then c - 32 else c

/-- `s.lower()` for a whole string. -/
def pyLowerStr (s : PyStr) : PyStr := s.map pyLowerChar

/-- A cased character in the ASCII range (Python `str.title` word-state test). -/
def pyIsCased (c : Nat) : Bool := decide ((65 ≤ c ∧ c ≤ 90) ∨ (97 ≤ c ∧ c ≤ 122))

/-- ASCII whitespace, the characters `str.strip()` removes on the strings at hand. -/
def pyIsSpace (c : Nat) : Bool := decide (c = 32 ∨ (9 ≤ c ∧ c ≤ 13))

/-- `str.strip()`: drop whitespace from both ends. -/
def pyStrip (s : PyStr) : PyStr :=
  ((s.dropWhile pyIsSpace).reverse.dropWhile pyIsSpace).reverse

/-- State-machine core of Python `str.title`: a cased character following a
cased character is lower-cased, one following an uncased character (or the
start) is upper-cased. -/
def pyTitleAux : Bool → PyStr → PyStr
  | _, [] => []
  | prev, c :: t => (if prev then pyLowerChar c else pyUpperChar c) :: pyTitleAux (pyIsCased c) t

/-- `str.title()`. -/
def pyTitle (s : PyStr) : PyStr := pyTitleAux false s

/-- ASCII decimal digit (`\d` of the version regex on the inputs at hand). -/
def isDigitN (c : Nat) : Bool := decide (48 ≤ c ∧ c ≤ 57)

/-- Index of the last occurrence of code point `c`, Python `str.rfind`. -/
def rfindAux (c : Nat) : PyStr → Option Nat
  | [] => none
  | a :: t =>
    match rfindAux c t with
    | some i => some (i + 1)
    | none => if a = c then some 0 else none

/-- `pathlib.Path(name).stem` for a plain file name: the name without its last
suffix; the suffix exists when the last dot is neither the first nor the last
character. -/
def pathStem (s : PyStr) : PyStr :=
  match rfindAux 46 s with
  | some i => if 0 < i ∧ i < s.length - 1 then s.take i else s
  | none => s

/-- `pathlib.Path(name).suffix` for a plain file name. -/
def pathSuffix (s : PyStr) : PyStr :=
  match rfindAux 46 s with
  | some i => if 0 < i ∧ i < s.length - 1 then s.drop i else []
  | none => []

/-- The architecture/OS tokens of `re.sub(r"(x64|x86|win32|win64)", "", name, re.I)`,
in the alternation order of the source. -/
def archTokens : List PyStr := [pystr "x64", pystr "x86", pystr "win32", pystr "win64"]

/-- Case-insensitive match of `tok` at the start of `s`. -/
def tokenAt (tok : PyStr) (s : PyStr) : Bool :=
  decide ((s.take tok.length).map pyLowerChar = tok)

/-- Scanner for the architecture-token substitution: at each position the
alternatives are tried in order and a match is deleted (replacement `""`),
scanning resuming after it; the fuel is an upper bound on the input length. -/
def subArchAux (fuel : Nat) (s : PyStr) : PyStr :=
  match fuel, s with
  | 0, s => s
  | _ + 1, [] => []
  | fuel + 1, c :: t =>
    match archTokens.find? (fun tok => tokenAt tok (c :: t)) with
    | some tok => subArchAux fuel ((c :: t).drop tok.length)
    | none => c :: subArchAux fuel t

/-- `re.sub(r"(x64|x86|win32|win64)", "", name, flags=re.I)`. -/
def subArch (s : PyStr) : PyStr := subArchAux s.length s

/-- Length of the maximal digit run at the start of `s` (`\d+`, greedy). -/
def digitRun (s : PyStr) : Nat := (s.takeWhile isDigitN).length

/-- Total length consumed by `(\.\d+)*` (greedy) at the start of `s`. -/
def dotGroupsAux (fuel : Nat) (s : PyStr) : Nat :=
  match fuel, s with
  | 0, _ => 0
  | fuel + 1, 46 :: t =>
    let d := digitRun t
    if d = 0 then 0 else 1 + d + dotGroupsAux fuel (t.drop d)
  | _ + 1, _ => 0

/-- Length of the match of `v?\d+(\.\d+)*` (case-insensitive) at the start of
`s`, `0` when there is no match there. -/
def versionMatchLen (s : PyStr) : Nat :=
  match s with
  | [] => 0
  | c :: t =>
    if c = 118 ∨ c = 86 then
      let d := digitRun t
      if d = 0 then 0 else 1 + d + dotGroupsAux t.length (t.drop d)
    else
      let d := digitRun (c :: t)
      if d = 0 then 0 else d + dotGroupsAux (c :: t).length ((c :: t).drop d)

/-- Scanner for the version-number substitution (deletion of each match). -/
def subVersionAux (fuel : Nat) (s : PyStr) : PyStr :=
  match fuel, s with
  | 0, s => s
  | _ + 1, [] => []
  | fuel + 1, c :: t =>
    let k := versionMatchLen (c :: t)
    if k = 0 then c :: subVersionAux fuel t
    else subVersionAux fuel ((c :: t).drop k)

/-- `re.sub(r"v?\d+(\.\d+)*", "", name, flags=re.I)`. -/
def subVersion (s : PyStr) : PyStr := subVersionAux s.length s

/-- The character class of `re.split(r"[_\-ï¼ˆ(]", name)`: underscore, hyphen,
the three literal characters U+00EF, U+00BC, U+02C6 present in the source file,
and the opening parenthesis. -/
def isSplitChar (c : Nat) : Bool :=
  decide (c = 95 ∨ c = 45 ∨ c = 239 ∨ c = 188 ∨ c = 710 ∨ c = 40)

/-- `re.split(r"[_\-ï¼ˆ(]", name)[0]`: the part before the first split character. -/
def takeBeforeSplit (s : PyStr) : PyStr := s.takeWhile (fun c => !(isSplitChar c))

/-- The separator class of `re.sub(r"[._\-]+", " ", name)`. -/
def isSepChar (c : Nat) : Bool := decide (c = 46 ∨ c = 95 ∨ c = 45)

/-- Scanner replacing each maximal run of separator characters by one space. -/
def collapseSepsAux (fuel : Nat) (s : PyStr) : PyStr :=
  match fuel, s with
  | 0, s => s
  | _ + 1, [] => []
  | fuel + 1, c :: t =>
    if isSepChar c then 32 :: collapseSepsAux fuel (t.dropWhile isSepChar)
    else c :: collapseSepsAux fuel t

/-- `re.sub(r"[._\-]+", " ", name)`. -/
def collapseSeps (s : PyStr) : PyStr := collapseSepsAux s.length s

/-- `normalize_tool_name` (PyUpdateTrackTools.py lines 20-41): stem, strip
architecture tokens, strip version numbers, truncate at the first split
character, collapse separators, strip and title-case. -/
def normalize_tool_name (filename : PyStr) : PyStr :=
  pyTitle (pyStrip (collapseSeps (takeBeforeSplit (subVersion (subArch (pathStem filename))))))

/-- Outcome of `r.json()` on a received response: the decoder may raise, or it
yields an object in which the string field the script reads (`extract` for the
first call, `AbstractText` for the second) is absent (`none`) or present. -/
inductive JsonBody where
  | exn : JsonBody
  | obj : Option PyStr → JsonBody
deriving DecidableEq

/-- Outcome of one `requests.get` call: the request may raise, or it yields a
response with a status code and a body. -/
inductive ReqOutcome where
  | exn : ReqOutcome
  | ok : Nat → JsonBody → ReqOutcome
deriving DecidableEq

/-- The fallback description of `query_tool_function` (line 87). -/
def fallbackDesc : PyStr := pystr "Windows utility tool"

/-- `s.split(".")[0]`: the part of `s` before its first period. -/
def splitDotHead (s : PyStr) : PyStr := s.takeWhile (fun c => !(decide (c = 46)))

/-- The Wikipedia branch (lines 56-65): on a raised exception (from the request
or the JSON decoder) or a non-200 status or an absent or empty `extract` field
it produces nothing; otherwise the extract up to its first period. -/
def wikiAttempt (wiki : ReqOutcome) : Option PyStr :=
  match wiki with
  | .exn => none
  | .ok status body =>
    if status = 200 then
      match body with
      | .exn => none
      | .obj ext =>
        match ext with
        | some e => if e = [] then none else some (splitDotHead e)
        | none => none
    else none

/-- The DuckDuckGo branch (lines 67-84): the status code is never inspected;
a raised exception or an absent or empty `AbstractText` field produces
nothing, otherwise the abstract up to its first period. -/
def ddgAttempt (ddg : ReqOutcome) : Option PyStr :=
  match ddg with
  | .exn => none
  | .ok _ body =>
    match body with
    | .exn => none
    | .obj ab =>
      match ab with
      | some a => if a = [] then none else some (splitDotHead a)
      | none => none

/-- `query_tool_function` (lines 47-87), with the two network interactions
abstracted into outcome values.  The function is total: every failure is
absorbed and the fallback string returned, as the two `try/except` blocks do. -/
def query_tool_function (tool_name : PyStr) (wiki ddg : ReqOutcome) : PyStr :=
  match wikiAttempt wiki with
  | some r => r
  | none =>
    match ddgAttempt ddg with
    | some r => r
    | none => fallbackDesc

/-- The `HEADERS` constant (lines 12-14). -/
def HEADERS : List (PyStr × PyStr) := [(pystr "User-Agent", pystr "WinToolsTableGenerator/1.0")]

/-- The arguments of one `requests.get` call: URL, the `headers=` argument when
one is passed, the `params=` argument, and the `timeout=` argument in seconds. -/
structure HttpRequest where
  url : PyStr
  headersArg : Option (List (PyStr × PyStr))
  params : List (PyStr × PyStr)
  timeout : Nat
deriving DecidableEq

/-- The Wikipedia request of `query_tool_function` (lines 57-59):
`requests.get(wiki_api, headers=HEADERS, timeout=5)` with the spaces of the
tool name replaced by underscores in the URL. -/
def wiki_request (tool_name : PyStr) : HttpRequest :=
  { url := pystr "https://en.wikipedia.org/api/rest_v1/page/summary/"
      ++ tool_name.map (fun c => if c = 32 then 95 else c)
  , headersArg := some HEADERS
  , params := []
  , timeout := 5 }

/-- The DuckDuckGo request of `query_tool_function` (lines 69-79):
`requests.get(ddg_api, params={...}, timeout=5)` — no `headers=` argument is
passed. -/
def ddg_request (tool_name : PyStr) : HttpRequest :=
  { url := pystr "https://api.duckduckgo.com/"
  , headersArg := none
  , params := [(pystr "q", tool_name), (pystr "format", pystr "json"),
               (pystr "no_redirect", pystr "1"), (pystr "no_html", pystr "1")]
  , timeout := 5 }

/-- The table header row literal (lines 98 and 118-120). -/
def headerLine : PyStr := pystr "| Name | Function |"

/-- The table separator row literal (line 99). -/
def sepLine : PyStr := pystr "| ---- | -------- |"

/-- `"\n".join(lines)`. -/
def joinNl : List PyStr → PyStr
  | [] => []
  | [x] => x
  | x :: y :: ys => x ++ 10 :: joinNl (y :: ys)

/-- `build_markdown_table` (lines 93-104): header row, separator row, one row
per `(name, function)` pair, joined with newlines. -/
def build_markdown_table (tools : List (PyStr × PyStr)) : PyStr :=
  joinNl (headerLine :: sepLine ::
    tools.map (fun nf => pystr "| " ++ nf.1 ++ pystr " | " ++ nf.2 ++ pystr " |"))

/-- Number of occurrences of `pat` as a contiguous substring (occurrences at
each start position, as Python substring search sees them). -/
def countOcc (pat : PyStr) : PyStr → Nat
  | [] => 0
  | c :: t => (if (c :: t).take pat.length = pat then 1 else 0) + countOcc pat t

/-- The Python `pat in s` substring test. -/
def hasSub (pat : PyStr) : PyStr → Bool
  | [] => decide (([] : PyStr).take pat.length = pat)
  | c :: t => decide ((c :: t).take pat.length = pat) || hasSub pat t

/-- Scanner for `re.sub(r"\| Name \| Function \|[\s\S]*?$", table, content,
flags=re.MULTILINE)`: at each occurrence of the header literal the lazy
`[\s\S]*?` stops at the first MULTILINE `$` position — the end of that line
(before the next newline, or the end of the string) — so each match is the
header together with the remainder of its own line, and the replacement
`table` is substituted for exactly that span; scanning resumes after the
match.  The fuel is an upper bound on the input length. -/
def subAux (table : PyStr) (fuel : Nat) (s : PyStr) : PyStr :=
  match fuel, s with
  | 0, s => s
  | _ + 1, [] => []
  | fuel + 1, c :: t =>
    if (c :: t).take headerLine.length = headerLine then
      table ++ subAux table fuel (((c :: t).drop headerLine.length).dropWhile (fun a => !(decide (a = 10))))
    else
      c :: subAux table fuel t

/-- The regex substitution of `update_markdown_file` (lines 119-124). -/
def subHeaderTable (table s : PyStr) : PyStr := subAux table s.length s

/-- `update_markdown_file` (lines 110-130), as a function from the previous
file content (`none` when the file does not exist) and the rendered table to
the content written back. -/
def update_markdown_file (existing : Option PyStr) (table_content : PyStr) : PyStr :=
  match existing with
  | some original_content =>
    if hasSub headerLine original_content then subHeaderTable table_content original_content
    else original_content ++ pystr "\n\n" ++ table_content
  | none => table_content

/-- The `SUPPORTED_EXTENSIONS` constant (line 9). -/
def SUPPORTED_EXTENSIONS : List PyStr := [pystr ".7z", pystr ".zip", pystr ".rar", pystr ".exe"]

/-- The collection loop of `main` (lines 146-152): keep the files whose
lower-cased suffix is supported, normalize each name and resolve its function
through the lookup outcomes `oracle` assigns to that name. -/
def collectTools (files : List PyStr) (oracle : PyStr → ReqOutcome × ReqOutcome) :
    List (PyStr × PyStr) :=
  files.filterMap (fun fn =>
    if pyLowerStr (pathSuffix fn) ∈ SUPPORTED_EXTENSIONS then
      let name := normalize_tool_name fn
      some (name, query_tool_function name (oracle name).1 (oracle name).2)
    else none)

/-- Strict lexicographic comparison of code-point sequences, Python `<` on
strings. -/
def lexLt : PyStr → PyStr → Bool
  | [], [] => false
  | [], _ :: _ => true
  | _ :: _, [] => false
  | a :: s, b :: t => if a < b then true else if b < a then false else lexLt s t

/-- Stable insertion for the ascending sort: an element goes after every
strictly smaller key and before keys that are not smaller. -/
def insertByKey {α : Type} (key : α → PyStr) (a : α) : List α → List α
  | [] => [a]
  | b :: t => if lexLt (key b) (key a) then b :: insertByKey key a t else a :: b :: t

/-- A stable ascending sort by key, the contract of Python `list.sort(key=...)`. -/
def pySortByKey {α : Type} (key : α → PyStr) (l : List α) : List α :=
  l.foldr (insertByKey key) []

/-- The complement of the digit test, the predicate preserved by the
normalizer stages. -/
def notDigit (c : Nat) : Bool := !(isDigitN c)

/-- A lookup oracle on which both remote calls raise. -/
def failOracle : PyStr → ReqOutcome × ReqOutcome := fun _ => (.exn, .exn)

/-- The collected and sorted pairs of `main` (lines 146-155):
`collected_tools.sort(key=lambda x: x[0].lower())`. -/
def main_tools (files : List PyStr) (oracle : PyStr → ReqOutcome × ReqOutcome) :
    List (PyStr × PyStr) :=
  pySortByKey (fun x => pyLowerStr x.1) (collectTools files oracle)

/-! ### Facts about the header literal and occurrence counting -/

theorem header_len : headerLine.length = 18 + 1 := by decide

theorem header_not_mem_nl : (10 : Nat) ∉ headerLine := by decide

theorem header_ne_nil : headerLine ≠ [] := by decide

theorem countOcc_cons (pat : PyStr) (c : Nat) (t : PyStr) :
    countOcc pat (c :: t) = (if (c :: t).take pat.length = pat then 1 else 0) + countOcc pat t := rfl

theorem take_header_cons (c : Nat) (t : PyStr) :
    (c :: t).take headerLine.length = c :: t.take 18 := by
  rw [header_len, List.take_succ_cons]

theorem take_header_take (w : PyStr) : (w.take headerLine.length).take 18 = w.take 18 := by
  rw [List.take_take]
  have h : min 18 headerLine.length = 18 := by rw [header_len]; omega
  rw [h]

theorem take_nl_ne_header (y : PyStr) : (10 :: y).take headerLine.length ≠ headerLine := by
  intro h
  apply header_not_mem_nl
  rw [← h, take_header_cons]
  exact List.mem_cons_self _ _

theorem countOcc_nl_cons (y : PyStr) :
    countOcc headerLine (10 :: y) = countOcc headerLine y := by
  rw [countOcc_cons, if_neg (take_nl_ne_header y)]
  omega

theorem take_append_nl_header (z y : PyStr) :
    (z ++ 10 :: y).take headerLine.length = headerLine ↔
      z.take headerLine.length = headerLine := by
  rcases le_or_lt headerLine.length z.length with hle | hlt
  · rw [List.take_append_eq_append_take, Nat.sub_eq_zero_of_le hle]
    simp
  · constructor
    · intro h
      exfalso
      apply header_not_mem_nl
      rw [← h, List.take_append_eq_append_take]
      apply List.mem_append_right
      obtain ⟨k, hk⟩ : ∃ k, headerLine.length - z.length = k + 1 :=
        ⟨headerLine.length - z.length - 1, by omega⟩
      rw [hk, List.take_succ_cons]
      exact List.mem_cons_self _ _
    · intro h
      exfalso
      have hlen := congrArg List.length h
      rw [List.length_take] at hlen
      omega

theorem countOcc_append_nl (x y : PyStr) :
    countOcc headerLine (x ++ 10 :: y) = countOcc headerLine x + countOcc headerLine y := by
  induction x with
  | nil =>
    have h0 : countOcc headerLine ([] : PyStr) = 0 := rfl
    rw [List.nil_append, countOcc_nl_cons, h0]
    omega
  | cons c x ih =>
    show countOcc headerLine (c :: (x ++ 10 :: y))
        = countOcc headerLine (c :: x) + countOcc headerLine y
    have hcond : ((c :: (x ++ 10 :: y)).take headerLine.length = headerLine) ↔
        ((c :: x).take headerLine.length = headerLine) := take_append_nl_header (c :: x) y
    rw [countOcc_cons, countOcc_cons, ih]
    by_cases h : (c :: x).take headerLine.length = headerLine
    · rw [if_pos h, if_pos (hcond.mpr h)]
      omega
    · rw [if_neg h, if_neg (fun hx => h (hcond.mp hx))]
      omega

theorem countOcc_drop_le (k : Nat) (s : PyStr) :
    countOcc headerLine (s.drop k) ≤ countOcc headerLine s := by
  induction s generalizing k with
  | nil => simp [List.drop_nil]
  | cons c t ih =>
    cases k with
    | zero => exact Nat.le_refl _
    | succ k =>
      rw [List.drop_succ_cons, countOcc_cons]
      exact Nat.le_trans (ih k) (Nat.le_add_left _ _)

theorem countOcc_dropWhile_le (p : Nat → Bool) (s : PyStr) :
    countOcc headerLine (s.dropWhile p) ≤ countOcc headerLine s := by
  induction s with
  | nil => exact Nat.le_refl _
  | cons c t ih =>
    rw [List.dropWhile_cons]
    by_cases h : p c
    · rw [if_pos h, countOcc_cons]
      exact Nat.le_trans ih (Nat.le_add_left _ _)
    · rw [if_neg h]

theorem hasSub_false_iff (s : PyStr) :
    hasSub headerLine s = false ↔ countOcc headerLine s = 0 := by
  induction s with
  | nil =>
    constructor
    · intro _
      rfl
    · intro _
      decide
  | cons c t ih =>
    rw [show hasSub headerLine (c :: t)
        = (decide ((c :: t).take headerLine.length = headerLine) || hasSub headerLine t) from rfl,
      countOcc_cons]
    by_cases h : (c :: t).take headerLine.length = headerLine
    · simp [h]
    · simp [h, ih]

/-! ### Behaviour of the header-line substitution -/

theorem dropWhile_nl_shape (l : PyStr) :
    l.dropWhile (fun a => !(decide (a = 10))) = [] ∨
      ∃ t, l.dropWhile (fun a => !(decide (a = 10))) = 10 :: t := by
  induction l with
  | nil => left; rfl
  | cons c t ih =>
    rw [List.dropWhile_cons]
    by_cases h : c = 10
    · right
      subst h
      exact ⟨t, by simp⟩
    · simpa [h] using ih

theorem subAux_take (table : PyStr) (hT : table.take headerLine.length = headerLine) :
    ∀ fuel s, s.length ≤ fuel →
      (subAux table fuel s).take headerLine.length = s.take headerLine.length := by
  intro fuel
  induction fuel with
  | zero => intro s _; rfl
  | succ fuel ih =>
    intro s hs
    match s with
    | [] => rfl
    | c :: t =>
      show (if (c :: t).take headerLine.length = headerLine then
          table ++ subAux table fuel (((c :: t).drop headerLine.length).dropWhile (fun a => !(decide (a = 10))))
        else c :: subAux table fuel t).take headerLine.length = (c :: t).take headerLine.length
      by_cases h : (c :: t).take headerLine.length = headerLine
      · rw [if_pos h, List.take_append_eq_append_take]
        have hlen : headerLine.length ≤ table.length := by
          have := congrArg List.length hT
          rw [List.length_take] at this
          omega
        rw [Nat.sub_eq_zero_of_le hlen, List.take_zero, List.append_nil, hT, h]
      · rw [if_neg h]
        have ht : t.length ≤ fuel := by
          have : (c :: t).length = t.length + 1 := rfl
          omega
        rw [take_header_cons, take_header_cons, ← take_header_take t,
          ← ih t ht, take_header_take]

theorem subAux_of_countOcc_zero (table : PyStr) :
    ∀ fuel s, s.length ≤ fuel → countOcc headerLine s = 0 → subAux table fuel s = s := by
  intro fuel
  induction fuel with
  | zero => intro s _ _; rfl
  | succ fuel ih =>
    intro s hs h0
    match s with
    | [] => rfl
    | c :: t =>
      rw [countOcc_cons] at h0
      have hcond : ¬ (c :: t).take headerLine.length = headerLine := by
        intro h
        rw [if_pos h] at h0
        omega
      have ht : t.length ≤ fuel := by
        have : (c :: t).length = t.length + 1 := rfl
        omega
      show (if (c :: t).take headerLine.length = headerLine then
          table ++ subAux table fuel (((c :: t).drop headerLine.length).dropWhile (fun a => !(decide (a = 10))))
        else c :: subAux table fuel t) = c :: t
      rw [if_neg hcond, ih t ht (by rw [if_neg hcond] at h0; omega)]

theorem subAux_countOcc (table : PyStr) (hT : table.take headerLine.length = headerLine) :
    ∀ fuel s, s.length ≤ fuel → countOcc headerLine s = 1 →
      countOcc headerLine (subAux table fuel s) = countOcc headerLine table := by
  intro fuel
  induction fuel with
  | zero =>
    intro s hs h1
    have : s = [] := List.length_eq_zero.mp (by omega)
    subst this
    exact absurd h1 (by simp [countOcc])
  | succ fuel ih =>
    intro s hs h1
    match s with
    | [] => exact absurd h1 (by simp [countOcc])
    | c :: t =>
      have ht : t.length ≤ fuel := by
        have : (c :: t).length = t.length + 1 := rfl
        omega
      show countOcc headerLine (if (c :: t).take headerLine.length = headerLine then
          table ++ subAux table fuel (((c :: t).drop headerLine.length).dropWhile (fun a => !(decide (a = 10))))
        else c :: subAux table fuel t) = countOcc headerLine table
      by_cases h : (c :: t).take headerLine.length = headerLine
      · rw [if_pos h]
        rw [countOcc_cons, if_pos h] at h1
        have hct : countOcc headerLine t = 0 := by omega
        set rest := ((c :: t).drop headerLine.length).dropWhile (fun a => !(decide (a = 10))) with hrest
        have hdrop : countOcc headerLine ((c :: t).drop headerLine.length) = 0 := by
          have h1le : countOcc headerLine ((c :: t).drop headerLine.length)
              ≤ countOcc headerLine t := by
            rw [header_len, List.drop_succ_cons]
            exact countOcc_drop_le 18 t
          omega
        have hrest0 : countOcc headerLine rest = 0 := by
          have := countOcc_dropWhile_le (fun a => !(decide (a = 10))) ((c :: t).drop headerLine.length)
          rw [← hrest] at this
          omega
        have hrlen : rest.length ≤ fuel := by
          have hsub := (List.dropWhile_sublist (l := (c :: t).drop headerLine.length)
            (fun a => !(decide (a = 10)))).length_le
          rw [← hrest] at hsub
          rw [List.length_drop] at hsub
          have : (c :: t).length = t.length + 1 := rfl
          rw [header_len] at hsub
          omega
        rw [subAux_of_countOcc_zero table fuel rest hrlen hrest0]
        rcases dropWhile_nl_shape ((c :: t).drop headerLine.length) with hsh | ⟨r, hsh⟩
        · rw [← hrest] at hsh
          rw [hsh, List.append_nil]
        · rw [← hrest] at hsh
          rw [hsh, countOcc_append_nl]
          rw [hsh, countOcc_nl_cons] at hrest0
          omega
      · rw [if_neg h]
        rw [countOcc_cons, if_neg h] at h1
        have h1t : countOcc headerLine t = 1 := by omega
        rw [countOcc_cons]
        have hA : (subAux table fuel t).take headerLine.length = t.take headerLine.length :=
          subAux_take table hT fuel t ht
        have hcond : ¬ (c :: subAux table fuel t).take headerLine.length = headerLine := by
          rw [take_header_cons, ← take_header_take (subAux table fuel t), hA, take_header_take]
          rw [take_header_cons] at h
          exact h
        rw [if_neg hcond, ih t ht h1t]
        omega

theorem build_take (tools : List (PyStr × PyStr)) :
    (build_markdown_table tools).take headerLine.length = headerLine := by
  show (joinNl (headerLine :: sepLine :: _)).take headerLine.length = headerLine
  rw [show joinNl (headerLine :: sepLine ::
      tools.map (fun nf => pystr "| " ++ nf.1 ++ pystr " | " ++ nf.2 ++ pystr " |"))
    = headerLine ++ 10 :: joinNl (sepLine ::
      tools.map (fun nf => pystr "| " ++ nf.1 ++ pystr " | " ++ nf.2 ++ pystr " |")) from rfl]
  rw [List.take_append_eq_append_take, Nat.sub_self, List.take_zero, List.append_nil,
    List.take_length]

theorem update_countOcc (existing : Option PyStr) (table : PyStr)
    (hT : table.take headerLine.length = headerLine)
    (hprior : ∀ s, existing = some s → countOcc headerLine s ≤ 1)
    (htab : countOcc headerLine table = 1) :
    countOcc headerLine (update_markdown_file existing table) = 1 := by
  match existing with
  | none => exact htab
  | some orig =>
    have hp : countOcc headerLine orig ≤ 1 := hprior orig rfl
    show countOcc headerLine
        (if hasSub headerLine orig then subHeaderTable table orig
         else orig ++ pystr "\n\n" ++ table) = 1
    by_cases h : hasSub headerLine orig
    · rw [if_pos h]
      have h1 : countOcc headerLine orig = 1 := by
        rcases Nat.lt_or_ge 0 (countOcc headerLine orig) with hpos | hz
        · omega
        · exfalso
          have : countOcc headerLine orig = 0 := by omega
          rw [(hasSub_false_iff orig).mpr this] at h
          exact Bool.false_ne_true h
      rw [show subHeaderTable table orig = subAux table orig.length orig from rfl,
        subAux_countOcc table hT orig.length orig (Nat.le_refl _) h1, htab]
    · rw [if_neg h]
      have h0 : countOcc headerLine orig = 0 :=
        (hasSub_false_iff orig).mp (Bool.of_not_eq_true h)
      have : orig ++ pystr "\n\n" ++ table = orig ++ 10 :: 10 :: table := by
        rw [List.append_assoc]
        rfl
      rw [this, countOcc_append_nl, countOcc_nl_cons, h0, htab]

/-! ### Character-level facts for the normalizer -/

theorem notDigit_pyUpperChar (c : Nat) : notDigit (pyUpperChar c) = notDigit c := by
  unfold pyUpperChar
  by_cases h : 97 ≤ c ∧ c ≤ 122
  · rw [if_pos h]
    have h1 : isDigitN (c - 32) = false := by
      unfold isDigitN
      simp only [decide_eq_false_iff_not]
      omega
    have h2 : isDigitN c = false := by
      unfold isDigitN
      simp only [decide_eq_false_iff_not]
      omega
    rw [notDigit, notDigit, h1, h2]
  · rw [if_neg h]

theorem notDigit_pyLowerChar (c : Nat) : notDigit (pyLowerChar c) = notDigit c := by
  unfold pyLowerChar
  by_cases h : 65 ≤ c ∧ c ≤ 90
  · rw [if_pos h]
    have h1 : isDigitN (c + 32) = false := by
      unfold isDigitN
      simp only [decide_eq_false_iff_not]
      omega
    have h2 : isDigitN c = false := by
      unfold isDigitN
      simp only [decide_eq_false_iff_not]
      omega
    rw [notDigit, notDigit, h1, h2]
  · rw [if_neg h]

theorem pyIsCased_pyUpperChar (c : Nat) : pyIsCased (pyUpperChar c) = pyIsCased c := by
  unfold pyUpperChar
  by_cases h : 97 ≤ c ∧ c ≤ 122
  · rw [if_pos h]
    unfold pyIsCased
    rw [decide_eq_decide]
    omega
  · rw [if_neg h]

theorem pyIsCased_pyLowerChar (c : Nat) : pyIsCased (pyLowerChar c) = pyIsCased c := by
  unfold pyLowerChar
  by_cases h : 65 ≤ c ∧ c ≤ 90
  · rw [if_pos h]
    unfold pyIsCased
    rw [decide_eq_decide]
    omega
  · rw [if_neg h]

theorem pyUpperChar_pyUpperChar (c : Nat) : pyUpperChar (pyUpperChar c) = pyUpperChar c := by
  unfold pyUpperChar
  by_cases h : 97 ≤ c ∧ c ≤ 122
  · rw [if_pos h, if_neg (by omega)]
  · rw [if_neg h, if_neg h]

theorem pyLowerChar_pyLowerChar (c : Nat) : pyLowerChar (pyLowerChar c) = pyLowerChar c := by
  unfold pyLowerChar
  by_cases h : 65 ≤ c ∧ c ≤ 90
  · rw [if_pos h, if_neg (by omega)]
  · rw [if_neg h, if_neg h]

/-! ### The normalizer output has no digits and is a `title()` fixed point -/

theorem all_of_subset {p : Nat → Bool} {s t : PyStr} (hsub : t ⊆ s)
    (h : s.all p = true) : t.all p = true := by
  rw [List.all_eq_true] at h ⊢
  exact fun x hx => h x (hsub hx)

theorem digitRun_pos_of_digit {c : Nat} (t : PyStr) (hc : isDigitN c = true) :
    digitRun (c :: t) ≠ 0 := by
  unfold digitRun
  rw [List.takeWhile_cons, if_pos hc]
  simp

theorem versionMatchLen_pos_of_digit {c : Nat} (t : PyStr) (hc : isDigitN c = true) :
    versionMatchLen (c :: t) ≠ 0 := by
  have hcv : ¬ (c = 118 ∨ c = 86) := by
    have h48 : 48 ≤ c ∧ c ≤ 57 := of_decide_eq_true hc
    omega
  have hred : versionMatchLen (c :: t)
      = if c = 118 ∨ c = 86 then
          (if digitRun t = 0 then 0
           else 1 + digitRun t + dotGroupsAux t.length (t.drop (digitRun t)))
        else
          (if digitRun (c :: t) = 0 then 0
           else digitRun (c :: t) + dotGroupsAux (c :: t).length ((c :: t).drop (digitRun (c :: t)))) := rfl
  rw [hred, if_neg hcv]
  have hd := digitRun_pos_of_digit t hc
  rw [if_neg hd]
  omega

theorem subVersionAux_no_digit :
    ∀ fuel s, s.length ≤ fuel → (subVersionAux fuel s).all notDigit = true := by
  intro fuel
  induction fuel with
  | zero =>
    intro s hs
    have : s = [] := List.length_eq_zero.mp (by omega)
    subst this
    rfl
  | succ fuel ih =>
    intro s hs
    match s with
    | [] => rfl
    | c :: t =>
      have ht : t.length ≤ fuel := by
        have : (c :: t).length = t.length + 1 := rfl
        omega
      show (if versionMatchLen (c :: t) = 0
          then c :: subVersionAux fuel t
          else subVersionAux fuel ((c :: t).drop (versionMatchLen (c :: t)))).all notDigit = true
      by_cases hk : versionMatchLen (c :: t) = 0
      · rw [if_pos hk, List.all_cons]
        have hc : notDigit c = true := by
          unfold notDigit
          by_cases hd : isDigitN c = true
          · exact absurd hk (versionMatchLen_pos_of_digit t hd)
          · rw [Bool.not_eq_true] at hd
            rw [hd]
            rfl
        rw [hc, ih t ht]
        rfl
      · rw [if_neg hk]
        apply ih
        rw [List.length_drop]
        have : (c :: t).length = t.length + 1 := rfl
        omega

theorem subVersion_no_digit (s : PyStr) : (subVersion s).all notDigit = true :=
  subVersionAux_no_digit s.length s (Nat.le_refl _)

theorem collapseSepsAux_no_digit :
    ∀ fuel s, s.length ≤ fuel → s.all notDigit = true →
      (collapseSepsAux fuel s).all notDigit = true := by
  intro fuel
  induction fuel with
  | zero => intro s _ h; exact h
  | succ fuel ih =>
    intro s hs h
    match s with
    | [] => rfl
    | c :: t =>
      rw [List.all_cons] at h
      have hc : notDigit c = true := by
        cases hx : notDigit c
        · rw [hx] at h
          exact absurd h (by simp)
        · rfl
      have hct : t.all notDigit = true := by
        rw [hc] at h
        simpa using h
      have ht : t.length ≤ fuel := by
        have : (c :: t).length = t.length + 1 := rfl
        omega
      show (if isSepChar c then 32 :: collapseSepsAux fuel (t.dropWhile isSepChar)
          else c :: collapseSepsAux fuel t).all notDigit = true
      by_cases hsep : isSepChar c
      · rw [if_pos hsep, List.all_cons]
        have h32 : notDigit 32 = true := by decide
        rw [h32]
        have hdt : (t.dropWhile isSepChar).all notDigit = true :=
          all_of_subset (List.dropWhile_subset isSepChar) hct
        have hdl : (t.dropWhile isSepChar).length ≤ fuel :=
          Nat.le_trans (List.dropWhile_sublist isSepChar).length_le ht
        rw [ih _ hdl hdt]
        rfl
      · rw [if_neg hsep, List.all_cons, hc, ih t ht hct]
        rfl

theorem pyStrip_no_digit {s : PyStr} (h : s.all notDigit = true) :
    (pyStrip s).all notDigit = true := by
  unfold pyStrip
  apply all_of_subset (s := s) _ h
  intro x hx
  rw [List.mem_reverse] at hx
  have hx2 := List.dropWhile_subset pyIsSpace hx
  rw [List.mem_reverse] at hx2
  exact List.dropWhile_subset pyIsSpace hx2

theorem pyTitleAux_no_digit :
    ∀ (s : PyStr) (b : Bool), s.all notDigit = true → (pyTitleAux b s).all notDigit = true := by
  intro s
  induction s with
  | nil => intro b _; rfl
  | cons c t ih =>
    intro b h
    rw [List.all_cons] at h
    have hc : notDigit c = true := by
      cases hx : notDigit c
      · rw [hx] at h
        exact absurd h (by simp)
      · rfl
    have hct : t.all notDigit = true := by
      rw [hc] at h
      simpa using h
    show ((if b then pyLowerChar c else pyUpperChar c) :: pyTitleAux (pyIsCased c) t).all notDigit = true
    rw [List.all_cons, ih (pyIsCased c) hct]
    cases b
    · rw [if_neg (by simp), notDigit_pyUpperChar, hc]
      rfl
    · rw [if_pos rfl, notDigit_pyLowerChar, hc]
      rfl

theorem normalize_no_digit (fn : PyStr) : (normalize_tool_name fn).all notDigit = true := by
  unfold normalize_tool_name
  apply pyTitleAux_no_digit
  apply pyStrip_no_digit
  apply collapseSepsAux_no_digit _ _ (Nat.le_refl _)
  apply all_of_subset (List.takeWhile_subset _)
  exact subVersion_no_digit _

theorem pyTitleAux_idem :
    ∀ (s : PyStr) (b : Bool), pyTitleAux b (pyTitleAux b s) = pyTitleAux b s := by
  intro s
  induction s with
  | nil => intro b; rfl
  | cons c t ih =>
    intro b
    show pyTitleAux b ((if b then pyLowerChar c else pyUpperChar c) :: pyTitleAux (pyIsCased c) t)
        = (if b then pyLowerChar c else pyUpperChar c) :: pyTitleAux (pyIsCased c) t
    cases b
    · rw [if_neg (by simp)]
      show pyUpperChar (pyUpperChar c) :: pyTitleAux (pyIsCased (pyUpperChar c)) (pyTitleAux (pyIsCased c) t)
          = pyUpperChar c :: pyTitleAux (pyIsCased c) t
      rw [pyUpperChar_pyUpperChar, pyIsCased_pyUpperChar, ih (pyIsCased c)]
    · rw [if_pos rfl]
      show pyLowerChar (pyLowerChar c) :: pyTitleAux (pyIsCased (pyLowerChar c)) (pyTitleAux (pyIsCased c) t)
          = pyLowerChar c :: pyTitleAux (pyIsCased c) t
      rw [pyLowerChar_pyLowerChar, pyIsCased_pyLowerChar, ih (pyIsCased c)]

theorem normalize_title_fixed (fn : PyStr) :
    pyTitle (normalize_tool_name fn) = normalize_tool_name fn := by
  unfold normalize_tool_name pyTitle
  exact pyTitleAux_idem _ false

theorem mem_of_hasSub {pat s : PyStr} (h : hasSub pat s = true) : ∀ x ∈ pat, x ∈ s := by
  induction s with
  | nil =>
    intro x hx
    unfold hasSub at h
    have hp : ([] : PyStr).take pat.length = pat := of_decide_eq_true h
    rw [List.take_nil] at hp
    rw [← hp] at hx
    exact absurd hx (List.not_mem_nil x)
  | cons c t ih =>
    intro x hx
    rw [show hasSub pat (c :: t)
        = (decide ((c :: t).take pat.length = pat) || hasSub pat t) from rfl] at h
    rcases Bool.or_eq_true_iff.mp h with h1 | h1
    · have hp : (c :: t).take pat.length = pat := of_decide_eq_true h1
      rw [← hp] at hx
      exact List.take_subset _ _ hx
    · exact List.mem_cons_of_mem c (ih h1 x hx)

theorem pyLowerStr_no_digit {s : PyStr} (h : s.all notDigit = true) :
    (pyLowerStr s).all notDigit = true := by
  unfold pyLowerStr
  rw [List.all_map]
  rw [List.all_eq_true] at h ⊢
  intro x hx
  show notDigit (pyLowerChar x) = true
  rw [notDigit_pyLowerChar]
  exact h x hx


/-- C1 (code bug witness): on a file whose table block is header, separator and
one data row, the substitution replaces only the header line itself, so the old
separator and data rows survive below the freshly inserted table; the content
is not the part above the header followed by the new table, as the spec
demands. -/
theorem c1_update_keeps_stale_rows :
    update_markdown_file
        (some (pystr "# My Tools\n\n| Name | Function |\n| ---- | -------- |\n| OldTool | old |"))
        (pystr "| Name | Function |\n| ---- | -------- |\n| NewTool | new |")
      = pystr "# My Tools\n\n| Name | Function |\n| ---- | -------- |\n| NewTool | new |\n| ---- | -------- |\n| OldTool | old |"
    ∧ update_markdown_file
        (some (pystr "# My Tools\n\n| Name | Function |\n| ---- | -------- |\n| OldTool | old |"))
        (pystr "| Name | Function |\n| ---- | -------- |\n| NewTool | new |")
      ≠ pystr "# My Tools\n\n| Name | Function |\n| ---- | -------- |\n| NewTool | new |" :=
  ⟨by decide, by decide⟩

/-- C2 (counterexample): with files `AppOne_x64.exe` and `appzero.zip` and both
lookups failing, the sorted rows are `Appone` then `Appzero` — the `Appzero`
row is second of the two rows, not before the row derived from
`AppOne_x64.exe` as the claim states. -/
theorem c2_counterexample :
    (main_tools [pystr "AppOne_x64.exe", pystr "appzero.zip"] failOracle).map Prod.fst
      = [pystr "Appone", pystr "Appzero"]
    ∧ pystr "Appzero" ≠ pystr "Appone" :=
  ⟨by decide, by decide⟩

/-- C2 (amended): the two files produce, in either enumeration order, the rows
`Appone` (derived from `AppOne_x64.exe`) and then `Appzero`, sorted
case-insensitively ascending, each with the fallback description. -/
theorem c2_amended :
    main_tools [pystr "AppOne_x64.exe", pystr "appzero.zip"] failOracle
      = [(pystr "Appone", fallbackDesc), (pystr "Appzero", fallbackDesc)]
    ∧ main_tools [pystr "appzero.zip", pystr "AppOne_x64.exe"] failOracle
      = [(pystr "Appone", fallbackDesc), (pystr "Appzero", fallbackDesc)]
    ∧ build_markdown_table (main_tools [pystr "AppOne_x64.exe", pystr "appzero.zip"] failOracle)
      = pystr "| Name | Function |\n| ---- | -------- |\n| Appone | Windows utility tool |\n| Appzero | Windows utility tool |" :=
  ⟨by decide, by decide, by decide⟩

/-- C3 (counterexample): with the first lookup failing and the second returning
status 404 with a parseable body whose `AbstractText` is non-empty, the
function returns the first sentence of the abstract, not the fallback — the status
code of the second lookup is never inspected. -/
theorem c3_counterexample :
    query_tool_function (pystr "SomeTool") .exn (.ok 404 (.obj (some (pystr "Great tool. Yes"))))
      = pystr "Great tool"
    ∧ query_tool_function (pystr "SomeTool") .exn (.ok 404 (.obj (some (pystr "Great tool. Yes"))))
      ≠ fallbackDesc :=
  ⟨by decide, by decide⟩

/-- C3 (amended): when the first lookup yields nothing usable, the second
status code of the second lookup is ignored: any response whose body parses with a
non-empty `AbstractText` yields that text up to its first period, and the
fallback is returned exactly when the body fails to parse or lacks the
field. -/
theorem c3_amended (tool_name : PyStr) (w : ReqOutcome) (s : Nat) (a : PyStr)
    (hw : wikiAttempt w = none) (ha : a ≠ []) :
    query_tool_function tool_name w (.ok s (.obj (some a))) = splitDotHead a
    ∧ query_tool_function tool_name w (.ok s .exn) = fallbackDesc
    ∧ query_tool_function tool_name w (.ok s (.obj none)) = fallbackDesc := by
  refine ⟨?_, ?_, ?_⟩ <;> simp [query_tool_function, hw, ddgAttempt, ha]

/-- Witness for C3 (amended) at a concrete non-200 response. -/
theorem c3_amended_witness :
    wikiAttempt .exn = none
    ∧ pystr "Great utility. More" ≠ []
    ∧ (query_tool_function (pystr "T") .exn (.ok 500 (.obj (some (pystr "Great utility. More"))))
        = splitDotHead (pystr "Great utility. More")
      ∧ query_tool_function (pystr "T") .exn (.ok 500 .exn) = fallbackDesc
      ∧ query_tool_function (pystr "T") .exn (.ok 500 (.obj none)) = fallbackDesc) :=
  ⟨rfl, by decide, c3_amended (pystr "T") .exn 500 (pystr "Great utility. More") rfl (by decide)⟩

/-- C4 (counterexample): the DuckDuckGo call passes no `headers=` argument at
all, so it does not carry the custom user-agent header. -/
theorem c4_counterexample :
    (ddg_request (pystr "Appzero")).headersArg = none
    ∧ (ddg_request (pystr "Appzero")).headersArg ≠ some HEADERS :=
  ⟨rfl, by decide⟩

/-- C4 (amended): for every tool name the encyclopedia call carries the fixed
custom user-agent header and a 5-second timeout, while the instant-answer call
has the 5-second timeout but passes no headers argument. -/
theorem c4_amended (tool_name : PyStr) :
    (wiki_request tool_name).headersArg = some HEADERS
    ∧ (wiki_request tool_name).timeout = 5
    ∧ (ddg_request tool_name).headersArg = none
    ∧ (ddg_request tool_name).timeout = 5 :=
  ⟨rfl, rfl, rfl, rfl⟩

/-- C5: for every tool name, when both remote lookups raise, the function
returns exactly the fixed fallback string; being a total Lean function, the
embedding also shows no exception escapes. -/
theorem c5_both_raise_fallback (tool_name : PyStr) :
    query_tool_function tool_name .exn .exn = fallbackDesc := rfl

/-- C6 (counterexample): starting from a non-existent file (at most one header
occurrence) the written content can contain the header line twice, because a
data row `| Name | Function |` rendered from the entry `("Name", "Function")`
duplicates the header. -/
theorem c6_counterexample :
    countOcc headerLine
        (update_markdown_file none (build_markdown_table [(pystr "Name", pystr "Function")])) ≠ 1
    ∧ countOcc headerLine
        (update_markdown_file none (build_markdown_table [(pystr "Name", pystr "Function")])) = 2 :=
  ⟨by decide, by decide⟩

/-- C6 (amended): if the prior state has at most one occurrence of the header
line (a missing file counting as none) and the rendered table contains the
header exactly once (no data row reproduces it), then the updated content
contains exactly one occurrence of the header line. -/
theorem c6_amended (existing : Option PyStr) (tools : List (PyStr × PyStr))
    (hprior : countOcc headerLine (existing.getD []) ≤ 1)
    (htab : countOcc headerLine (build_markdown_table tools) = 1) :
    countOcc headerLine (update_markdown_file existing (build_markdown_table tools)) = 1 := by
  apply update_countOcc existing _ (build_take tools) _ htab
  intro s hs
  match existing, hs with
  | some s, rfl => exact hprior

/-- Witness for C6 (amended) on a header-free prior file and a one-row table. -/
theorem c6_amended_witness :
    countOcc headerLine ((some (pystr "# Intro\n\nsome text") : Option PyStr).getD []) ≤ 1
    ∧ countOcc headerLine (build_markdown_table [(pystr "Audacity", pystr "Audio editor")]) = 1
    ∧ countOcc headerLine (update_markdown_file (some (pystr "# Intro\n\nsome text"))
        (build_markdown_table [(pystr "Audacity", pystr "Audio editor")])) = 1 :=
  ⟨by decide, by decide,
    c6_amended (some (pystr "# Intro\n\nsome text")) [(pystr "Audacity", pystr "Audio editor")]
      (by decide) (by decide)⟩

/-- C7: for every filename containing an architecture token (case-insensitive)
and a version-number token (equivalently, a digit — any digit run matches the
version pattern), the normalized name contains neither that architecture token
(case-insensitively) nor any digit, and it is title-cased (a fixed point of
`title()`). -/
theorem c7_normalize_clean (fn tok : PyStr) (htok : tok ∈ archTokens)
    (harch : hasSub tok (pyLowerStr fn) = true)
    (hver : fn.any isDigitN = true) :
    hasSub tok (pyLowerStr (normalize_tool_name fn)) = false
    ∧ (normalize_tool_name fn).all notDigit = true
    ∧ pyTitle (normalize_tool_name fn) = normalize_tool_name fn := by
  refine ⟨?_, normalize_no_digit fn, normalize_title_fixed fn⟩
  by_contra hcon
  rw [Bool.not_eq_false] at hcon
  have hdig : ∃ d, d ∈ tok ∧ isDigitN d = true := by
    simp only [archTokens, List.mem_cons, List.mem_singleton] at htok
    rcases htok with rfl | rfl | rfl | rfl | htok
    · exact ⟨54, by decide, rfl⟩
    · exact ⟨56, by decide, rfl⟩
    · exact ⟨51, by decide, rfl⟩
    · exact ⟨54, by decide, rfl⟩
    · exact absurd htok (List.not_mem_nil tok)
  obtain ⟨d, hd, hdd⟩ := hdig
  have hmem : d ∈ pyLowerStr (normalize_tool_name fn) := mem_of_hasSub hcon d hd
  have hall := pyLowerStr_no_digit (normalize_no_digit fn)
  rw [List.all_eq_true] at hall
  have hnd := hall d hmem
  rw [notDigit, hdd] at hnd
  exact absurd hnd (by decide)

/-- Witness for C7 on the example filename of the spec and the token `x64`. -/
theorem c7_normalize_clean_witness :
    (pystr "x64" ∈ archTokens
      ∧ hasSub (pystr "x64") (pyLowerStr (pystr "DiskGeniusPro_x64_v1.2.3.7z")) = true
      ∧ (pystr "DiskGeniusPro_x64_v1.2.3.7z").any isDigitN = true)
    ∧ (hasSub (pystr "x64")
          (pyLowerStr (normalize_tool_name (pystr "DiskGeniusPro_x64_v1.2.3.7z"))) = false
      ∧ (normalize_tool_name (pystr "DiskGeniusPro_x64_v1.2.3.7z")).all notDigit = true
      ∧ pyTitle (normalize_tool_name (pystr "DiskGeniusPro_x64_v1.2.3.7z"))
          = normalize_tool_name (pystr "DiskGeniusPro_x64_v1.2.3.7z")) :=
  ⟨⟨by decide, by decide, by decide⟩,
    c7_normalize_clean (pystr "DiskGeniusPro_x64_v1.2.3.7z") (pystr "x64")
      (by decide) (by decide) (by decide)⟩

/-- C8: the normalizer on `DiskGeniusPro_x64_v1.2.3.7z` passes through the
staged intermediate results of the fixed rule order — stem, architecture strip,
version strip, truncation at the first separator, separator collapse, trim and
title-case — and returns exactly `Diskgeniuspro`. -/
theorem c8_normalize_diskgeniuspro :
    pathStem (pystr "DiskGeniusPro_x64_v1.2.3.7z") = pystr "DiskGeniusPro_x64_v1.2.3"
    ∧ subArch (pystr "DiskGeniusPro_x64_v1.2.3") = pystr "DiskGeniusPro__v1.2.3"
    ∧ subVersion (pystr "DiskGeniusPro__v1.2.3") = pystr "DiskGeniusPro__"
    ∧ takeBeforeSplit (pystr "DiskGeniusPro__") = pystr "DiskGeniusPro"
    ∧ collapseSeps (pystr "DiskGeniusPro") = pystr "DiskGeniusPro"
    ∧ pyTitle (pyStrip (pystr "DiskGeniusPro")) = pystr "Diskgeniuspro"
    ∧ normalize_tool_name (pystr "DiskGeniusPro_x64_v1.2.3.7z") = pystr "Diskgeniuspro" :=
  ⟨by decide, by decide, by decide, by decide, by decide, by decide, by decide⟩

/-- C9: whenever the encyclopedia lookup returns status 200 with a parsed body
whose `extract` is non-empty, the result is the extract up to its first period,
for every possible state of the second lookup — which is therefore never
consulted. -/
theorem c9_wiki_first_sentence (tool_name : PyStr) (e : PyStr) (ddg : ReqOutcome)
    (he : e ≠ []) :
    query_tool_function tool_name (.ok 200 (.obj (some e))) ddg = splitDotHead e := by
  simp [query_tool_function, wikiAttempt, he]

/-- Witness for C9 at a concrete extract, with the second lookup raising. -/
theorem c9_wiki_first_sentence_witness :
    pystr "A partition tool. It manages disks" ≠ []
    ∧ query_tool_function (pystr "Diskgenius")
        (.ok 200 (.obj (some (pystr "A partition tool. It manages disks")))) .exn
      = splitDotHead (pystr "A partition tool. It manages disks") :=
  ⟨by decide,
    c9_wiki_first_sentence (pystr "Diskgenius") (pystr "A partition tool. It manages disks")
      .exn (by decide)⟩

/-- C10: when no enumerated file has a supported extension, the collected list
is empty, the rendered table is exactly the header row and separator row joined
by a newline, and writing it to a fresh target document yields exactly that
header-only table. -/
theorem c10_header_only_table (files : List PyStr) (oracle : PyStr → ReqOutcome × ReqOutcome)
    (h : files.all (fun fn => !(decide (pyLowerStr (pathSuffix fn) ∈ SUPPORTED_EXTENSIONS))) = true) :
    main_tools files oracle = []
    ∧ build_markdown_table (main_tools files oracle)
        = pystr "| Name | Function |\n| ---- | -------- |"
    ∧ update_markdown_file none (build_markdown_table (main_tools files oracle))
        = pystr "| Name | Function |\n| ---- | -------- |" := by
  have hc : collectTools files oracle = [] := by
    unfold collectTools
    rw [List.filterMap_eq_nil_iff]
    intro fn hfn
    have hni := List.all_eq_true.mp h fn hfn
    simp only [Bool.not_eq_eq_eq_not, Bool.not_true, decide_eq_false_iff_not] at hni
    rw [if_neg hni]
  have hm : main_tools files oracle = [] := by
    unfold main_tools
    rw [hc]
    rfl
  refine ⟨hm, ?_, ?_⟩ <;> rw [hm] <;> decide

/-- Witness for C10 on a directory with only unsupported files. -/
theorem c10_header_only_table_witness :
    ([pystr "README.md", pystr "script.py"].all
        (fun fn => !(decide (pyLowerStr (pathSuffix fn) ∈ SUPPORTED_EXTENSIONS))) = true)
    ∧ (main_tools [pystr "README.md", pystr "script.py"] failOracle = []
      ∧ build_markdown_table (main_tools [pystr "README.md", pystr "script.py"] failOracle)
          = pystr "| Name | Function |\n| ---- | -------- |"
      ∧ update_markdown_file none
          (build_markdown_table (main_tools [pystr "README.md", pystr "script.py"] failOracle))
          = pystr "| Name | Function |\n| ---- | -------- |") :=
  ⟨by decide, c10_header_only_table [pystr "README.md", pystr "script.py"] failOracle (by decide)⟩
